import Mathlib

/-!
Verification development for the storage core of the bindle artifact
registry.  The Rust sources embedded here are `src/lib.rs` (manifest data
model and the `version_compare` range matcher) and `src/storage/mod.rs`
(the `Storage` trait contract and the `StorageError` taxonomy).  Parts of
the repository that the sources only declare (the file-backed `Storage`
realization, the `Id` identity type, and the serde/TOML codec driven by
the derive attributes of `lib.rs`) are modelled from the specification;
each such definition says so in its doc comment.
-/

namespace Bindle

/-- A parsed semantic version.  Models the external `semver::Version` in
its numeric `major.minor.patch` form (pre-release and build metadata are
not used by this repository's inputs). -/
structure SemVersion where
  major : Nat
  minor : Nat
  patch : Nat
deriving DecidableEq, Repr

/-- Interpret a non-empty list of decimal digit characters as a number;
`none` if the list is empty or contains a non-digit. -/
def digitsToNat (cs : List Char) : Option Nat :=
  if cs.isEmpty then none
  else cs.foldl
    (fun acc c =>
      acc.bind (fun n => if c.isDigit then some (n * 10 + (c.toNat - 48)) else none))
    (some 0)

/-- Split a character list at the literal dots, mirroring how a
`major.minor.patch` string is decomposed. -/
def splitDots (cs : List Char) : List (List Char) :=
  match cs with
  | [] => [[]]
  | c :: rest =>
    match splitDots rest with
    | [] => if c = '.' then [[], []] else [[c]]
    | seg :: segs => if c = '.' then [] :: seg :: segs else (c :: seg) :: segs

/-- Parse of a full semantic version string, modelling
`semver::Version::parse`: exactly three dot-separated numeric components.
Anything else (empty string, garbage, missing components) fails. -/
def parseVersion (s : String) : Option SemVersion :=
  match splitDots s.data with
  | [a, b, c] => do
    let ma ← digitsToNat a
    let mi ← digitsToNat b
    let pa ← digitsToNat c
    some ⟨ma, mi, pa⟩
  | _ => none

/-- Comparator operator of a single version requirement, as accepted by
`semver::VersionReq::parse_compat` with `Compat::Npm`.  A bare literal
carries no operator and is recorded as `exact`: under the npm
compatibility rules (the comment in `lib.rs` lines 130-134) the bare
requirement `1.2.3` means `= 1.2.3`, and a bare partial such as `2`
means the x-range `2.x.x`, which is component-wise equality on the
components that are present. -/
inductive ReqOp where
  | exact
  | caret
  | tilde
  | gt
  | lt
  | ge
  | le
deriving DecidableEq, Repr

/-- A possibly partial version as written in a requirement: `1`, `1.2`
or `1.2.3`. -/
structure PartialVer where
  major : Nat
  minor : Option Nat
  patch : Option Nat
deriving DecidableEq, Repr

/-- A parsed single-comparator version requirement. -/
structure SemVerReq where
  op : ReqOp
  ver : PartialVer
deriving DecidableEq, Repr

/-- Strip the leading comparator token of a requirement; no token means a
bare literal, treated as `exact` per the npm compatibility mode. -/
def parseOp (cs : List Char) : ReqOp × List Char :=
  match cs with
  | '>' :: '=' :: rest => (.ge, rest)
  | '<' :: '=' :: rest => (.le, rest)
  | '>' :: rest => (.gt, rest)
  | '<' :: rest => (.lt, rest)
  | '=' :: rest => (.exact, rest)
  | '^' :: rest => (.caret, rest)
  | '~' :: rest => (.tilde, rest)
  | rest => (.exact, rest)

/-- Parse `digits [. digits [. digits]]`, returning the partial version
and the unconsumed rest. -/
def parsePartial (cs : List Char) : Option (PartialVer × List Char) :=
  let d1 := cs.takeWhile Char.isDigit
  let r1 := cs.dropWhile Char.isDigit
  match digitsToNat d1 with
  | none => none
  | some ma =>
    match r1 with
    | '.' :: r2 =>
      let d2 := r2.takeWhile Char.isDigit
      let r3 := r2.dropWhile Char.isDigit
      match digitsToNat d2 with
      | none => none
      | some mi =>
        match r3 with
        | '.' :: r4 =>
          let d3 := r4.takeWhile Char.isDigit
          let r5 := r4.dropWhile Char.isDigit
          match digitsToNat d3 with
          | none => none
          | some pa => some (⟨ma, some mi, some pa⟩, r5)
        | _ => some (⟨ma, some mi, none⟩, r3)
    | _ => some (⟨ma, none, none⟩, r1)

/-- Parse of a requirement string, modelling
`semver::VersionReq::parse_compat(requirement, Compat::Npm)` on the
single-comparator requirements this repository exercises: optional
surrounding whitespace, an optional comparator, whitespace, then a
possibly partial numeric version.  Anything else fails to parse. -/
def parseReqNpm (s : String) : Option SemVerReq :=
  let cs := s.data.dropWhile (· = ' ')
  let (op, rest) := parseOp cs
  let rest2 := rest.dropWhile (· = ' ')
  match parsePartial rest2 with
  | some (pv, tail) =>
    if tail.dropWhile (· = ' ') = [] then some ⟨op, pv⟩ else none
  | none => none

/-- Strict lexicographic order on versions, modelling `semver`'s
ordering on numeric versions. -/
def verLt (a b : SemVersion) : Bool :=
  a.major < b.major
    || (a.major = b.major
        && (a.minor < b.minor || (a.minor = b.minor && a.patch < b.patch)))

/-- `a ≤ b` on versions. -/
def verLe (a b : SemVersion) : Bool :=
  verLt a b || a = b

/-- The lower bound named by a partial version: absent components are
taken as zero. -/
def lowerOf (pv : PartialVer) : SemVersion :=
  ⟨pv.major, pv.minor.getD 0, pv.patch.getD 0⟩

/-- Exclusive upper bound of a caret requirement (npm rule: changes that
do not modify the left-most non-zero component are allowed). -/
def caretUpper (pv : PartialVer) : SemVersion :=
  if pv.major > 0 then ⟨pv.major + 1, 0, 0⟩
  else if pv.minor.getD 0 > 0 then ⟨0, pv.minor.getD 0 + 1, 0⟩
  else
    match pv.patch with
    | some pa => ⟨0, 0, pa + 1⟩
    | none =>
      match pv.minor with
      | some _ => ⟨0, 1, 0⟩
      | none => ⟨1, 0, 0⟩

/-- Exclusive upper bound of a tilde requirement (npm rule: patch-level
changes when a minor component is given, minor-level changes
otherwise). -/
def tildeUpper (pv : PartialVer) : SemVersion :=
  match pv.minor with
  | some mi => ⟨pv.major, mi + 1, 0⟩
  | none => ⟨pv.major + 1, 0, 0⟩

/-- Containment test of a version in a single-comparator requirement,
modelling `semver::VersionReq::matches` under `Compat::Npm`. -/
def reqMatches (r : SemVerReq) (v : SemVersion) : Bool :=
  match r.op with
  | .exact =>
    v.major = r.ver.major
      && (match r.ver.minor with
          | none => true
          | some mi => v.minor = mi)
      && (match r.ver.patch with
          | none => true
          | some pa => v.patch = pa)
  | .caret => verLe (lowerOf r.ver) v && verLt v (caretUpper r.ver)
  | .tilde => verLe (lowerOf r.ver) v && verLt v (tildeUpper r.ver)
  | .gt => verLt (lowerOf r.ver) v
  | .lt => verLt v (lowerOf r.ver)
  | .ge => verLe (lowerOf r.ver) v
  | .le => verLe v (lowerOf r.ver)

/-- Embedding of `version_compare` (`src/lib.rs` lines 125-150): an empty
requirement matches anything; a requirement that fails to parse matches
nothing (the Rust code only logs the parse error); a version that fails
to parse matches nothing; otherwise the range-containment test decides. -/
def version_compare (version : String) (requirement : String) : Bool :=
  if requirement = "" then true
  else
    match parseReqNpm requirement with
    | some req =>
      match parseVersion version with
      | some ver => reqMatches req ver
      | none => false
    | none => false

/-! ## Identity -/

/-- Modelled from the spec: the `Id` identity type (`src/id.rs` is not
among the sources; only `pub use id::Id` and the spec's section 4.1
describe it).  `name` is the bindle name and `version` the semantic
version kept in its textual form; a value is well formed when `version`
parses as a semantic version. -/
structure Id where
  name : String
  version : String
deriving DecidableEq, Repr

/-- Low hex digit of a nibble, a character in `[0-9a-f]`. -/
def hexDigit (n : Nat) : Char :=
  if n < 10 then Char.ofNat (48 + n) else Char.ofNat (87 + n)

/-- Byte list rendered as lowercase hex characters. -/
def hexOfBytes (bs : List Nat) : List Char :=
  bs.foldr (fun b acc => hexDigit (b % 256 / 16) :: hexDigit (b % 16) :: acc) []

/-- Modelled from the spec: `Id::sha`, the one-way hash of the canonical
`"name/version"` form used as the storage key (`src/id.rs` is absent).
The spec requires only that it be a pure deterministic function of the
pair whose output stays inside `[a-zA-Z0-9]`; it is modelled as the hex
encoding of the canonical form's character codes. -/
def Id.sha (id : Id) : String :=
  String.mk (hexOfBytes ((id.name ++ "/" ++ id.version).data.map Char.toNat))

/-- Modelled from the spec: parsing an identifier string (`src/id.rs` is
absent; spec section 4.1).  The string splits at the name/version
separator `/` (the last one, so names may contain slashes); parsing
fails when the separator is missing, the name is empty, or the version
segment is not a semantic version. -/
def parseId (s : String) : Option Id :=
  match s.data.reverse.span (· ≠ '/') with
  | (_, []) => none
  | (revVer, _ :: revName) =>
    let name := String.mk revName.reverse
    let ver := String.mk revVer.reverse
    if name = "" then none
    else if (parseVersion ver).isSome then some ⟨name, ver⟩ else none

/-! ## Manifest data model (`src/lib.rs` lines 21-111) -/

/-- Embedding of `Label` (`src/lib.rs` lines 88-96).  `size` is an
`Option<i64>` in the source, embedded as `Option Int`; the string maps
of the source (`BTreeMap<String, String>`) are embedded as association
lists. -/
structure Label where
  sha256 : String
  media_type : String
  name : String
  size : Option Int
  annotations : Option (List (String × String))
deriving DecidableEq, Repr

/-- Embedding of `Condition` (`src/lib.rs` lines 98-103). -/
structure Condition where
  member_of : Option (List String)
  requires : Option (List String)
deriving DecidableEq, Repr

/-- Embedding of `Parcel` (`src/lib.rs` lines 81-86). -/
structure Parcel where
  label : Label
  conditions : Option Condition
deriving DecidableEq, Repr

/-- Embedding of `Group` (`src/lib.rs` lines 105-111). -/
structure Group where
  name : String
  required : Option Bool
  satisfied_by : Option String
deriving DecidableEq, Repr

/-- Embedding of `BindleSpec` (`src/lib.rs` lines 72-79); its `id` field
is serde-flattened into the containing table. -/
structure BindleSpec where
  id : Id
  description : Option String
  authors : Option (List String)
deriving DecidableEq, Repr

/-- Embedding of `Invoice` (`src/lib.rs` lines 21-32). -/
structure Invoice where
  bindle_version : String
  yanked : Option Bool
  bindle : BindleSpec
  annotations : Option (List (String × String))
  parcels : Option (List Parcel)
  group : Option (List Group)
deriving DecidableEq, Repr

/-- Embedding of `Invoice::name` (`src/lib.rs` lines 39-41): the
slash-delimited invoice name. -/
def Invoice.name (inv : Invoice) : String :=
  inv.bindle.id.name ++ "/" ++ inv.bindle.id.version

/-- Embedding of `Invoice::canonical_name` (`src/lib.rs` lines 51-53):
delegates to the identity's hash. -/
def Invoice.canonical_name (inv : Invoice) : String :=
  inv.bindle.id.sha

/-- Embedding of `Invoice::version_in_range` (`src/lib.rs` lines 67-69):
delegates to `version_compare` on the invoice's own version. -/
def Invoice.version_in_range (inv : Invoice) (requirement : String) : Bool :=
  version_compare inv.bindle.id.version requirement

/-! ## Manifest text encoding

Modelled from the spec: the manifest (de)serialization is performed by
the external serde/TOML machinery directed by the derive attributes on
the structs of `src/lib.rs` (`deny_unknown_fields`,
`rename_all = "camelCase"`, `alias = "parcel"`, `flatten` on
`BindleSpec.id`).  The text format is modelled at the level of its
structured document tree; absent `Option` fields are omitted on write
and default to `none` on read, and every table is schema-checked
strictly. -/

/-- A TOML-like structured document value. -/
inductive Toml where
  | str : String → Toml
  | int : Int → Toml
  | bool : Bool → Toml
  | table : List (String × Toml) → Toml
  | arr : List Toml → Toml

/-- Decode failure; surfaced by the storage layer as
`StorageError::Malformed`. -/
inductive DecodeError where
  | malformed
deriving DecidableEq, Repr

/-- First value stored under a key in an association list. -/
def alookup {α : Type} (l : List (String × α)) (k : String) : Option α :=
  match l with
  | [] => none
  | (k2, v) :: rest => if k2 = k then some v else alookup rest k

/-- The table entry an optional field contributes: nothing when the
field is `none`. -/
def optEntry {α : Type} (k : String) (enc : α → Toml) (a : Option α) :
    List (String × Toml) :=
  match a with
  | none => []
  | some v => [(k, enc v)]

/-- Encode a string-to-string map. -/
def encodeStrMap (m : List (String × String)) : Toml :=
  .table (m.map (fun kv => (kv.1, .str kv.2)))

/-- Encode a list of strings. -/
def encodeStrList (xs : List String) : Toml :=
  .arr (xs.map .str)

/-- Serialization of `Label` (field names per
`rename_all = "camelCase"`). -/
def encodeLabel (l : Label) : Toml :=
  .table ([("sha256", .str l.sha256), ("mediaType", .str l.media_type),
           ("name", .str l.name)]
    ++ optEntry "size" .int l.size
    ++ optEntry "annotations" encodeStrMap l.annotations)

/-- Serialization of `Condition`. -/
def encodeCondition (c : Condition) : Toml :=
  .table (optEntry "memberOf" encodeStrList c.member_of
    ++ optEntry "requires" encodeStrList c.requires)

/-- Serialization of `Parcel`. -/
def encodeParcel (p : Parcel) : Toml :=
  .table ([("label", encodeLabel p.label)]
    ++ optEntry "conditions" encodeCondition p.conditions)

/-- Serialization of `Group`. -/
def encodeGroup (g : Group) : Toml :=
  .table ([("name", .str g.name)]
    ++ optEntry "required" .bool g.required
    ++ optEntry "satisfiedBy" .str g.satisfied_by)

/-- Serialization of `BindleSpec`; the flattened `Id` contributes the
`name` and `version` keys of the `bindle` table. -/
def encodeBindleSpec (b : BindleSpec) : Toml :=
  .table ([("name", .str b.id.name), ("version", .str b.id.version)]
    ++ optEntry "description" .str b.description
    ++ optEntry "authors" encodeStrList b.authors)

/-- Serialization of `Invoice`; the parcels list is always written under
the canonical plural key `parcels`, never the legacy alias. -/
def encodeInvoice (inv : Invoice) : Toml :=
  .table ([("bindleVersion", .str inv.bindle_version)]
    ++ optEntry "yanked" .bool inv.yanked
    ++ [("bindle", encodeBindleSpec inv.bindle)]
    ++ optEntry "annotations" encodeStrMap inv.annotations
    ++ optEntry "parcels" (fun ps => .arr (ps.map encodeParcel)) inv.parcels
    ++ optEntry "group" (fun gs => .arr (gs.map encodeGroup)) inv.group)

/-- Decode a string value. -/
def decodeStr (t : Toml) : Except DecodeError String :=
  match t with
  | .str s => .ok s
  | _ => .error .malformed

/-- Decode a boolean value. -/
def decodeBool (t : Toml) : Except DecodeError Bool :=
  match t with
  | .bool b => .ok b
  | _ => .error .malformed

/-- Decode an integer value (an `i64` field such as `Label.size`). -/
def decodeInt (t : Toml) : Except DecodeError Int :=
  match t with
  | .int n => .ok n
  | _ => .error .malformed

/-- Decode every element of an array with the given decoder. -/
def decodeListWith {α : Type} (dec : Toml → Except DecodeError α) :
    List Toml → Except DecodeError (List α)
  | [] => .ok []
  | t :: ts => do
    let a ← dec t
    let as ← decodeListWith dec ts
    .ok (a :: as)

/-- Decode a string-to-string table. -/
def decodeStrPairs : List (String × Toml) → Except DecodeError (List (String × String))
  | [] => .ok []
  | (k, t) :: rest => do
    let v ← decodeStr t
    let vs ← decodeStrPairs rest
    .ok ((k, v) :: vs)

/-- Decode a string map value. -/
def decodeStrMap (t : Toml) : Except DecodeError (List (String × String)) :=
  match t with
  | .table kvs => decodeStrPairs kvs
  | _ => .error .malformed

/-- Decode a list-of-strings value. -/
def decodeStrList (t : Toml) : Except DecodeError (List String) :=
  match t with
  | .arr ts => decodeListWith decodeStr ts
  | _ => .error .malformed

/-- A required field: absent means a malformed manifest. -/
def reqField {α : Type} (kvs : List (String × Toml)) (k : String)
    (dec : Toml → Except DecodeError α) : Except DecodeError α :=
  match alookup kvs k with
  | none => .error .malformed
  | some t => dec t

/-- An optional field: absent decodes to `none` (serde's implicit
`Option` default). -/
def optField {α : Type} (kvs : List (String × Toml)) (k : String)
    (dec : Toml → Except DecodeError α) : Except DecodeError (Option α) :=
  match alookup kvs k with
  | none => .ok none
  | some t => (dec t).map some

/-- Strict-schema check of `deny_unknown_fields`: every key of the table
must be declared. -/
def keysOk (kvs : List (String × Toml)) (allowed : List String) : Bool :=
  kvs.all (fun kv => decide (kv.1 ∈ allowed))

/-- Deserialization of `Label`, strict per `deny_unknown_fields`. -/
def decodeLabel (t : Toml) : Except DecodeError Label :=
  match t with
  | .table kvs =>
    if keysOk kvs ["sha256", "mediaType", "name", "size", "annotations"] then do
      let sh ← reqField kvs "sha256" decodeStr
      let mt ← reqField kvs "mediaType" decodeStr
      let nm ← reqField kvs "name" decodeStr
      let sz ← optField kvs "size" decodeInt
      let an ← optField kvs "annotations" decodeStrMap
      .ok ⟨sh, mt, nm, sz, an⟩
    else .error .malformed
  | _ => .error .malformed

/-- Deserialization of `Condition`. -/
def decodeCondition (t : Toml) : Except DecodeError Condition :=
  match t with
  | .table kvs =>
    if keysOk kvs ["memberOf", "requires"] then do
      let mo ← optField kvs "memberOf" decodeStrList
      let rq ← optField kvs "requires" decodeStrList
      .ok ⟨mo, rq⟩
    else .error .malformed
  | _ => .error .malformed

/-- Deserialization of `Parcel`. -/
def decodeParcel (t : Toml) : Except DecodeError Parcel :=
  match t with
  | .table kvs =>
    if keysOk kvs ["label", "conditions"] then do
      let lb ← reqField kvs "label" decodeLabel
      let cd ← optField kvs "conditions" decodeCondition
      .ok ⟨lb, cd⟩
    else .error .malformed
  | _ => .error .malformed

/-- Deserialization of `Group`. -/
def decodeGroup (t : Toml) : Except DecodeError Group :=
  match t with
  | .table kvs =>
    if keysOk kvs ["name", "required", "satisfiedBy"] then do
      let nm ← reqField kvs "name" decodeStr
      let rd ← optField kvs "required" decodeBool
      let sb ← optField kvs "satisfiedBy" decodeStr
      .ok ⟨nm, rd, sb⟩
    else .error .malformed
  | _ => .error .malformed

/-- Deserialization of `BindleSpec` with its flattened `Id`: the
`version` key must hold a well-formed semantic version. -/
def decodeBindleSpec (t : Toml) : Except DecodeError BindleSpec :=
  match t with
  | .table kvs =>
    if keysOk kvs ["name", "version", "description", "authors"] then
      match alookup kvs "version" with
      | some (.str vr) =>
        if (parseVersion vr).isSome then do
          let nm ← reqField kvs "name" decodeStr
          let ds ← optField kvs "description" decodeStr
          let au ← optField kvs "authors" decodeStrList
          .ok ⟨⟨nm, vr⟩, ds, au⟩
        else .error .malformed
      | _ => .error .malformed
    else .error .malformed
  | _ => .error .malformed

/-- The keys the `Invoice` schema declares, the read-only alias
included. -/
def invoiceKeys : List String :=
  ["bindleVersion", "yanked", "bindle", "annotations", "parcels", "parcel", "group"]

/-- Deserialization of `Invoice`: strict schema, and the legacy singular
key `parcel` is accepted as a read-time alias of `parcels` (both at once
is the serde duplicate-field error). -/
def decodeInvoice (t : Toml) : Except DecodeError Invoice :=
  match t with
  | .table kvs =>
    if keysOk kvs invoiceKeys then do
      let bv ← reqField kvs "bindleVersion" decodeStr
      let yk ← optField kvs "yanked" decodeBool
      let bd ← reqField kvs "bindle" decodeBindleSpec
      let an ← optField kvs "annotations" decodeStrMap
      let ps ←
        match alookup kvs "parcels", alookup kvs "parcel" with
        | some _, some _ => .error .malformed
        | some t2, none => (match t2 with
            | .arr ts => (decodeListWith decodeParcel ts).map some
            | _ => .error .malformed)
        | none, some t2 => (match t2 with
            | .arr ts => (decodeListWith decodeParcel ts).map some
            | _ => .error .malformed)
        | none, none => .ok none
      let gp ← optField kvs "group"
        (fun t2 => match t2 with
          | .arr ts => decodeListWith decodeGroup ts
          | _ => .error .malformed)
      .ok ⟨bv, yk, bd, an, ps, gp⟩
    else .error .malformed
  | _ => .error .malformed

/-- The keys a manifest table carries. -/
def tomlKeys (t : Toml) : List String :=
  match t with
  | .table kvs => kvs.map (fun kv => kv.1)
  | _ => []

/-- A well-formed identity: its version text parses as a semantic
version. -/
def Id.wf (id : Id) : Bool :=
  (parseVersion id.version).isSome

/-- Rewrite a manifest to use the legacy singular `parcel` key in place
of the canonical `parcels` key, for exercising the read-time alias. -/
def useParcelAlias (t : Toml) : Toml :=
  match t with
  | .table kvs =>
    .table (kvs.map (fun kv => if kv.1 = "parcels" then ("parcel", kv.2) else kv))
  | other => other

/-! ## Storage engine

The `Storage` trait and `StorageError` taxonomy are declared in
`src/storage/mod.rs`; the file-backed realization (`storage/file.rs`) is
not among the sources, so the operations are modelled from the spec
(section 4.4) over an explicit state.  Every operation returns
`Except StorageError`, and an error result carries no new state:
failures leave storage unchanged by construction, matching the spec's
"returned without partial side effects". -/

/-- Embedding of `StorageError` (`src/storage/mod.rs` lines 50-72);
payloads of the source (`std::io::Error`, TOML codec errors) carry no
information the contract depends on and are dropped.  The source
constructor for persistent-medium failures is spelled `IOFailure` here
because its Rust name collides with a reserved Lean namespace. -/
inductive StorageError where
  | Yanked
  | CreateYanked
  | NotFound
  | IOFailure
  | Exists
  | InvalidId
  | DigestMismatch
  | Malformed
  | Unserializable
deriving DecidableEq, Repr

/-- Modelled from the spec: the persistent state a `Storage`
realization maintains — manifests keyed by canonical key, parcel byte
content keyed by sha256 digest (spec section 6, storage layout
contract). -/
structure StorageState where
  invoices : List (String × Invoice)
  parcels : List (String × List Nat)
deriving DecidableEq, Repr

/-- Modelled from the spec: the SHA-256 content digest of a byte
stream.  The contract relies only on it being a pure deterministic
function of the bytes; it is modelled as their hex encoding. -/
def modelDigest (data : List Nat) : String :=
  String.mk (hexOfBytes data)

/-- Modelled from the spec: `Storage::create_invoice`
(`src/storage/mod.rs` lines 17-21, spec section 4.4).  Rejects with
`CreateYanked` if the invoice is marked yanked, with `Exists` if its
canonical key is already present; otherwise persists the manifest and
returns the labels of the referenced parcels whose content is absent
from parcel storage. -/
def create_invoice (s : StorageState) (inv : Invoice) :
    Except StorageError (StorageState × List Label) :=
  if inv.yanked.getD false then .error .CreateYanked
  else if (alookup s.invoices inv.canonical_name).isSome then .error .Exists
  else
    .ok ({ s with invoices := (inv.canonical_name, inv) :: s.invoices },
      ((inv.parcels.getD []).map Parcel.label).filter
        (fun l => (alookup s.parcels l.sha256).isNone))

/-- Modelled from the spec: `Storage::get_invoice` (spec section 4.4).
Resolves the identifier, loads the manifest under the canonical key;
`NotFound` if absent, `Yanked` if the stored invoice is yanked. -/
def get_invoice (s : StorageState) (idStr : String) :
    Except StorageError Invoice :=
  match parseId idStr with
  | none => .error .InvalidId
  | some id =>
    match alookup s.invoices id.sha with
    | none => .error .NotFound
    | some inv => if inv.yanked.getD false then .error .Yanked else .ok inv

/-- Modelled from the spec: `Storage::get_yanked_invoice` (spec section
4.4).  The identical lookup, returning the manifest regardless of yank
state. -/
def get_yanked_invoice (s : StorageState) (idStr : String) :
    Except StorageError Invoice :=
  match parseId idStr with
  | none => .error .InvalidId
  | some id =>
    match alookup s.invoices id.sha with
    | none => .error .NotFound
    | some inv => .ok inv

/-- Set the yanked flag of the invoice stored under a key. -/
def yankAt : List (String × Invoice) → String → List (String × Invoice)
  | [], _ => []
  | (a, b) :: rest, k =>
    (if a = k then (a, { b with yanked := some true }) else (a, b)) :: yankAt rest k

/-- Modelled from the spec: `Storage::yank_invoice` (spec section 4.4).
Sets the manifest's yanked flag and persists it; `NotFound` if the
invoice does not exist. -/
def yank_invoice (s : StorageState) (idStr : String) :
    Except StorageError StorageState :=
  match parseId idStr with
  | none => .error .InvalidId
  | some id =>
    match alookup s.invoices id.sha with
    | none => .error .NotFound
    | some _ => .ok { s with invoices := yankAt s.invoices id.sha }

/-- Modelled from the spec: `Storage::create_parcel` (spec section 4.4).
Fails with `DigestMismatch` when the bytes do not hash to the label's
declared `sha256` (nothing is retained), with `Exists` when content is
already stored under that digest; otherwise persists the bytes under
the digest. -/
def create_parcel (s : StorageState) (label : Label) (data : List Nat) :
    Except StorageError StorageState :=
  if modelDigest data ≠ label.sha256 then .error .DigestMismatch
  else if (alookup s.parcels label.sha256).isSome then .error .Exists
  else .ok { s with parcels := (label.sha256, data) :: s.parcels }

/-- Modelled from the spec: `Storage::get_parcel` (spec section 4.4).
Returns the stored bytes for a digest; `NotFound` if absent. -/
def get_parcel (s : StorageState) (digest : String) :
    Except StorageError (List Nat) :=
  match alookup s.parcels digest with
  | none => .error .NotFound
  | some data => .ok data

/-- One invocation of a storage operation, for reasoning over operation
sequences. -/
inductive StorageOp where
  | createInv (inv : Invoice)
  | yankInv (idStr : String)
  | createPar (label : Label) (data : List Nat)
  | getInv (idStr : String)
  | getYankedInv (idStr : String)
  | getPar (digest : String)

/-- The state after one operation: mutators apply on success and leave
the state unchanged on error; reads never change it. -/
def stepOp (s : StorageState) (op : StorageOp) : StorageState :=
  match op with
  | .createInv inv =>
    match create_invoice s inv with
    | .ok r => r.1
    | .error _ => s
  | .yankInv i =>
    match yank_invoice s i with
    | .ok s2 => s2
    | .error _ => s
  | .createPar l d =>
    match create_parcel s l d with
    | .ok s2 => s2
    | .error _ => s
  | .getInv _ => s
  | .getYankedInv _ => s
  | .getPar _ => s

/-- The state after a sequence of operations. -/
def runOps (s : StorageState) (ops : List StorageOp) : StorageState :=
  ops.foldl stepOp s

/-- The invoice stored under `k` exists and is marked yanked. -/
def yankedAt (s : StorageState) (k : String) : Bool :=
  match alookup s.invoices k with
  | some inv => inv.yanked == some true
  | none => false

/-- Whether a fallible operation succeeded. -/
def resultOk {ε α : Type} (r : Except ε α) : Bool :=
  match r with
  | .ok _ => true
  | .error _ => false

/-! ## Concrete fixtures (mirroring the test data of `src/lib.rs`) -/

/-- The identity `foo/1.2.3` of the serialization test. -/
def exId : Id :=
  ⟨"foo", "1.2.3"⟩

/-- A parcel label whose declared digest is the digest of the bytes
`[1, 2, 3]`. -/
def exLabel : Label :=
  ⟨modelDigest [1, 2, 3], "text/plain", "a.txt", some 3, none⟩

/-- A fresh invoice for `foo/1.2.3` referencing one parcel. -/
def exInvoice : Invoice :=
  ⟨"v1.0.0", none, ⟨exId, none, none⟩, none, some [⟨exLabel, none⟩], none⟩

/-- The same invoice marked yanked. -/
def exInvoiceYanked : Invoice :=
  { exInvoice with yanked := some true }

/-- Empty storage. -/
def exState0 : StorageState :=
  ⟨[], []⟩

/-- Storage holding `exInvoice` and no parcel content. -/
def exState1 : StorageState :=
  ⟨[(exInvoice.canonical_name, exInvoice)], []⟩

/-- Storage holding the yanked invoice. -/
def exStateY : StorageState :=
  ⟨[(exInvoice.canonical_name, exInvoiceYanked)], []⟩

/-- Storage holding the parcel content of `exLabel`. -/
def exStateP : StorageState :=
  ⟨[], [(modelDigest [1, 2, 3], [1, 2, 3])]⟩

/-- A manifest whose parcel label declares the negative size `-1`. -/
def negSizeManifest : Toml :=
  .table [("bindleVersion", .str "v1.0.0"),
          ("bindle", .table [("name", .str "foo"), ("version", .str "1.2.3")]),
          ("parcels", .arr [.table [("label",
            .table [("sha256", .str "abc"), ("mediaType", .str "text/plain"),
                    ("name", .str "a"), ("size", .int (-1))])]])]

/-- The invoice value `negSizeManifest` denotes. -/
def negSizeInvoice : Invoice :=
  ⟨"v1.0.0", none, ⟨⟨"foo", "1.2.3"⟩, none, none⟩, none,
   some [⟨⟨"abc", "text/plain", "a", some (-1), none⟩, none⟩], none⟩

end Bindle

namespace Bindle

/-! ## Version matcher theorems -/

/-- C2: the version matcher is a total function and obeys the edge
rules: an empty requirement matches regardless of the version; a
non-empty requirement that fails to parse as a range yields false; a
requirement that parses combined with an empty or unparseable version
yields false. -/
theorem version_compare_edge_rules (version requirement : String) :
    (requirement = "" → version_compare version requirement = true)
  ∧ (requirement ≠ "" → parseReqNpm requirement = none →
      version_compare version requirement = false)
  ∧ (∀ r, requirement ≠ "" → parseReqNpm requirement = some r →
      parseVersion version = none → version_compare version requirement = false)
  ∧ (requirement ≠ "" → version = "" → version_compare version requirement = false) := by
  refine ⟨?_, ?_, ?_, ?_⟩
  · intro h; simp [version_compare, h]
  · intro h hp; simp [version_compare, h, hp]
  · intro r h hp hv; simp [version_compare, h, hp, hv]
  · intro h hv
    subst hv
    have hv2 : parseVersion "" = none := rfl
    cases hp : parseReqNpm requirement with
    | none => simp [version_compare, h, hp]
    | some r => simp [version_compare, h, hp, hv2]

/-- Witness for C2 at concrete inputs. -/
theorem version_compare_edge_rules_witness :
    version_compare "1.2.3" "" = true
  ∧ version_compare "1.2.3" "%^&%^&%" = false
  ∧ version_compare "xyz" "^1" = false
  ∧ version_compare "" "^1" = false :=
  ⟨(version_compare_edge_rules "1.2.3" "").1 rfl,
   (version_compare_edge_rules "1.2.3" "%^&%^&%").2.1 (by decide) (by decide),
   (version_compare_edge_rules "xyz" "^1").2.2.1 ⟨.caret, 1, none, none⟩
     (by decide) (by decide) (by decide),
   (version_compare_edge_rules "" "^1").2.2.2 (by decide) rfl⟩

/-- C3: a bare version literal requirement is an exact-equality
constraint, and the truth table of the test suite holds: for version
1.2.3 the requirements "= 1.2.3", "1.2.3", "^1.1", "~1.2" and the empty
requirement match; "2" and garbage do not; for requirement "^1" the
empty and garbage versions do not match; and the bare requirement
"1.2.3" does not match version 1.2.4. -/
theorem version_compare_truth_table :
    version_compare "1.2.3" "= 1.2.3" = true
  ∧ version_compare "1.2.3" "1.2.3" = true
  ∧ version_compare "1.2.3" "^1.1" = true
  ∧ version_compare "1.2.3" "~1.2" = true
  ∧ version_compare "1.2.3" "" = true
  ∧ version_compare "1.2.3" "2" = false
  ∧ version_compare "1.2.3" "%^&%^&%" = false
  ∧ version_compare "" "^1" = false
  ∧ version_compare "%^&%^&%" "^1" = false
  ∧ version_compare "1.2.4" "1.2.3" = false := by
  decide

/-! ## Manifest codec round-trip lemmas -/

/-- String maps decode back from their encoding. -/
theorem decodeStrPairs_enc (m : List (String × String)) :
    decodeStrPairs (m.map (fun kv => (kv.1, Toml.str kv.2))) = .ok m := by
  induction m with
  | nil => rfl
  | cons kv rest ih =>
    obtain ⟨k, v⟩ := kv
    simp only [List.map_cons, decodeStrPairs, decodeStr, ih]
    rfl

/-- Element-wise round-trip lifts to encoded arrays. -/
theorem decodeListWith_enc {α : Type} (f : α → Toml) (g : Toml → Except DecodeError α)
    (l : List α) (h : ∀ a ∈ l, g (f a) = .ok a) :
    decodeListWith g (l.map f) = .ok l := by
  induction l with
  | nil => rfl
  | cons a rest ih =>
    have h1 : g (f a) = .ok a := h a (List.mem_cons_self a rest)
    have h2 : decodeListWith g (rest.map f) = .ok rest :=
      ih (fun b hb => h b (List.mem_cons_of_mem a hb))
    simp only [List.map_cons, decodeListWith, h1, h2]
    rfl

/-- String-map values decode back from their encoding. -/
theorem decodeStrMap_enc (m : List (String × String)) :
    decodeStrMap (encodeStrMap m) = .ok m := by
  simp only [decodeStrMap, encodeStrMap, decodeStrPairs_enc]

/-- String-list values decode back from their encoding. -/
theorem decodeStrList_enc (xs : List String) :
    decodeStrList (encodeStrList xs) = .ok xs := by
  simp only [decodeStrList, encodeStrList]
  exact decodeListWith_enc _ _ _ (fun a _ => rfl)

/-- Labels decode back from their encoding. -/
theorem decodeLabel_enc (l : Label) : decodeLabel (encodeLabel l) = .ok l := by
  obtain ⟨sh, mt, nm, sz, an⟩ := l
  cases sz <;> cases an <;>
    first
    | rfl
    | (simp [encodeLabel, decodeLabel, keysOk, optEntry, reqField, optField, alookup,
             decodeStr, decodeInt, decodeStrMap, encodeStrMap, decodeStrPairs_enc]
       rfl)

/-- Conditions decode back from their encoding. -/
theorem decodeCondition_enc (c : Condition) :
    decodeCondition (encodeCondition c) = .ok c := by
  obtain ⟨mo, rq⟩ := c
  cases mo <;> cases rq <;>
    first
    | rfl
    | (simp [encodeCondition, decodeCondition, keysOk, optEntry, reqField, optField,
             alookup, decodeStrList_enc]
       rfl)

/-- Parcels decode back from their encoding. -/
theorem decodeParcel_enc (p : Parcel) : decodeParcel (encodeParcel p) = .ok p := by
  obtain ⟨lb, cd⟩ := p
  cases cd <;>
    (simp [encodeParcel, decodeParcel, keysOk, optEntry, reqField, optField, alookup,
           decodeLabel_enc, decodeCondition_enc]
     rfl)

/-- Groups decode back from their encoding. -/
theorem decodeGroup_enc (g : Group) : decodeGroup (encodeGroup g) = .ok g := by
  obtain ⟨nm, rd, sb⟩ := g
  cases rd <;> cases sb <;> rfl

/-- Bindle specs with a well-formed identity decode back from their
encoding. -/
theorem decodeBindleSpec_enc (b : BindleSpec) (h : b.id.wf = true) :
    decodeBindleSpec (encodeBindleSpec b) = .ok b := by
  obtain ⟨⟨nm, vr⟩, ds, au⟩ := b
  simp only [Id.wf] at h
  cases ds <;> cases au <;>
    (simp [encodeBindleSpec, decodeBindleSpec, keysOk, optEntry, reqField, optField,
           alookup, decodeStr, decodeStrList_enc, h]
     rfl)

/-- Parcel lists decode back from their encoding. -/
theorem decodeParcels_enc (ps : List Parcel) :
    decodeListWith decodeParcel (ps.map encodeParcel) = .ok ps :=
  decodeListWith_enc _ _ _ (fun a _ => decodeParcel_enc a)

/-- Group lists decode back from their encoding. -/
theorem decodeGroups_enc (gs : List Group) :
    decodeListWith decodeGroup (gs.map encodeGroup) = .ok gs :=
  decodeListWith_enc _ _ _ (fun a _ => decodeGroup_enc a)

/-- C7: encoding any valid invoice (one whose identity carries a
parseable semantic version) to the manifest format and decoding the
result yields a structurally equal invoice, field for field. -/
theorem invoice_roundtrip (inv : Invoice) (h : inv.bindle.id.wf = true) :
    decodeInvoice (encodeInvoice inv) = .ok inv := by
  obtain ⟨bv, yk, bd, an, ps, gp⟩ := inv
  simp only at h
  cases yk <;> cases an <;> cases ps <;> cases gp <;>
    (simp [encodeInvoice, decodeInvoice, invoiceKeys, keysOk, optEntry, reqField,
           optField, alookup, decodeStr, decodeBool, encodeStrMap, decodeStrMap,
           decodeStrPairs_enc, decodeBindleSpec_enc _ h, decodeParcels_enc,
           decodeGroups_enc]
     try rfl)

/-- Witness for C7 on the invoice of the serialization test. -/
theorem invoice_roundtrip_witness :
    decodeInvoice (encodeInvoice exInvoice) = .ok exInvoice :=
  invoice_roundtrip exInvoice (by decide)

/-- C8: invoice parsing rejects any manifest carrying a key outside the
declared schema, surfacing the strict-schema failure; the legacy
singular key "parcel" is accepted as a read-time alias of the parcels
list; and serialization always emits the canonical plural key "parcels"
and never the alias. -/
theorem invoice_schema_strict (kvs : List (String × Toml)) (k : String) (t : Toml)
    (inv : Invoice) :
    ((k, t) ∈ kvs → ¬ k ∈ invoiceKeys → decodeInvoice (.table kvs) = .error .malformed)
  ∧ (inv.bindle.id.wf = true →
      decodeInvoice (useParcelAlias (encodeInvoice inv)) = .ok inv)
  ∧ ¬ "parcel" ∈ tomlKeys (encodeInvoice inv)
  ∧ (inv.parcels.isSome = true → "parcels" ∈ tomlKeys (encodeInvoice inv)) := by
  refine ⟨?_, ?_, ?_, ?_⟩
  · intro hmem hnot
    cases hko : keysOk kvs invoiceKeys with
    | false => simp [decodeInvoice, hko]
    | true =>
      exfalso
      have hall := List.all_eq_true.mp hko (k, t) hmem
      exact hnot (of_decide_eq_true hall)
  · intro h
    obtain ⟨bv, yk, bd, an, ps, gp⟩ := inv
    simp only at h
    cases yk <;> cases an <;> cases ps <;> cases gp <;>
      (simp [encodeInvoice, useParcelAlias, decodeInvoice, invoiceKeys, keysOk,
             optEntry, reqField, optField, alookup, decodeStr, decodeBool,
             encodeStrMap, decodeStrMap, decodeStrPairs_enc,
             decodeBindleSpec_enc _ h, decodeParcels_enc, decodeGroups_enc]
       try rfl)
  · obtain ⟨bv, yk, bd, an, ps, gp⟩ := inv
    cases yk <;> cases an <;> cases ps <;> cases gp <;>
      simp [encodeInvoice, tomlKeys, optEntry]
  · intro hps
    obtain ⟨bv, yk, bd, an, ps, gp⟩ := inv
    cases ps with
    | none => exact absurd hps (by simp)
    | some ps2 =>
      cases yk <;> cases an <;> cases gp <;>
        simp [encodeInvoice, tomlKeys, optEntry]

/-- Witness for C8: a bogus key is rejected, the alias round-trips, and
the canonical key is the one emitted. -/
theorem invoice_schema_strict_witness :
    decodeInvoice (.table [("bogus", .str "x")]) = .error .malformed
  ∧ decodeInvoice (useParcelAlias (encodeInvoice exInvoice)) = .ok exInvoice
  ∧ ¬ "parcel" ∈ tomlKeys (encodeInvoice exInvoice)
  ∧ "parcels" ∈ tomlKeys (encodeInvoice exInvoice) :=
  ⟨(invoice_schema_strict [("bogus", .str "x")] "bogus" (.str "x") exInvoice).1
     (by simp) (by decide),
   (invoice_schema_strict [] "" (.str "") exInvoice).2.1 (by decide),
   (invoice_schema_strict [] "" (.str "") exInvoice).2.2.1,
   (invoice_schema_strict [] "" (.str "") exInvoice).2.2.2 (by decide)⟩

/-- C10: the size field of a parcel label is a signed integer with no
validation: a manifest declaring size -1 parses successfully, the
negative value is exposed on the parsed label, and it survives a
serialization round trip. -/
theorem label_negative_size_accepted :
    decodeInvoice negSizeManifest = .ok negSizeInvoice
  ∧ (negSizeInvoice.parcels.getD []).map (fun p => p.label.size) = [some (-1)]
  ∧ decodeInvoice (encodeInvoice negSizeInvoice) = .ok negSizeInvoice :=
  ⟨rfl, rfl, rfl⟩

/-! ## Canonical key theorems -/

/-- Hex digits of nibbles are alphanumeric. -/
theorem hexDigit_lt16_isAlphanum : ∀ m, m < 16 → (hexDigit m).isAlphanum = true := by
  decide

/-- Every character of a hex encoding is alphanumeric. -/
theorem hexOfBytes_alphanum (bs : List Nat) :
    (hexOfBytes bs).all (fun c => c.isAlphanum) = true := by
  induction bs with
  | nil => rfl
  | cons b rest ih =>
    show (hexDigit (b % 256 / 16) :: hexDigit (b % 16) :: hexOfBytes rest).all
      (fun c => c.isAlphanum) = true
    have h1 : b % 256 / 16 < 16 := by
      have : b % 256 < 256 := Nat.mod_lt _ (by norm_num)
      omega
    have h2 : b % 16 < 16 := Nat.mod_lt _ (by norm_num)
    simp [List.all_cons, hexDigit_lt16_isAlphanum _ h1,
          hexDigit_lt16_isAlphanum _ h2, ih]

/-- C9: the canonical key is a pure deterministic function of the
(name, version) pair, its characters all lie in the alphanumeric set,
and the canonical name of an invoice delegates to the hash of its
identity. -/
theorem canonical_key_contract (id1 id2 : Id) (inv : Invoice) :
    (id1.name = id2.name → id1.version = id2.version → id1.sha = id2.sha)
  ∧ (id1.sha.data.all (fun c => c.isAlphanum)) = true
  ∧ inv.canonical_name = inv.bindle.id.sha := by
  refine ⟨?_, ?_, rfl⟩
  · intro hn hv
    obtain ⟨n1, v1⟩ := id1
    obtain ⟨n2, v2⟩ := id2
    simp only at hn hv
    subst hn
    subst hv
    rfl
  · exact hexOfBytes_alphanum _

/-- Witness for C9 at the identity foo/1.2.3. -/
theorem canonical_key_contract_witness :
    Id.sha exId = Id.sha exId
  ∧ (Id.sha exId).data.all (fun c => c.isAlphanum) = true
  ∧ Invoice.canonical_name exInvoice = exInvoice.bindle.id.sha :=
  ⟨(canonical_key_contract exId exId exInvoice).1 rfl rfl,
   (canonical_key_contract exId exId exInvoice).2.1,
   (canonical_key_contract exId exId exInvoice).2.2⟩

end Bindle

namespace Bindle

/-! ## Storage engine theorems -/

/-- Lookup in a cons cell unfolds to a key comparison. -/
theorem alookup_cons {α : Type} (a : String) (b : α) (l : List (String × α)) (k : String) :
    alookup ((a, b) :: l) k = if a = k then some b else alookup l k := rfl

/-- Yanking unfolds on a cons cell. -/
theorem yankAt_cons (a : String) (b : Invoice) (rest : List (String × Invoice)) (k : String) :
    yankAt ((a, b) :: rest) k =
      (if a = k then (a, { b with yanked := some true }) else (a, b)) :: yankAt rest k := rfl

/-- Lookup after yanking: the targeted key sees its invoice with the
yanked flag set, every other key is untouched. -/
theorem alookup_yankAt (l : List (String × Invoice)) (k k2 : String) :
    alookup (yankAt l k) k2 =
      if k2 = k then (alookup l k2).map (fun inv => { inv with yanked := some true })
      else alookup l k2 := by
  induction l with
  | nil => simp [yankAt, alookup]
  | cons kv rest ih =>
    obtain ⟨a, b⟩ := kv
    rw [yankAt_cons]
    by_cases h1 : a = k
    · rw [if_pos h1]
      simp only [alookup_cons]
      by_cases h3 : a = k2
      · have h2 : k2 = k := h3 ▸ h1
        simp only [if_pos h3, if_pos h2]
        rfl
      · simp only [if_neg h3]
        rw [ih]
    · rw [if_neg h1]
      simp only [alookup_cons]
      by_cases h3 : a = k2
      · have h2 : ¬ k2 = k := fun he => h1 (h3.trans he)
        simp only [if_pos h3, if_neg h2]
      · simp only [if_neg h3]
        rw [ih]

/-- Yanking the same key twice changes nothing further. -/
theorem yankAt_idem (l : List (String × Invoice)) (k : String) :
    yankAt (yankAt l k) k = yankAt l k := by
  induction l with
  | nil => rfl
  | cons kv rest ih =>
    obtain ⟨a, b⟩ := kv
    rw [yankAt_cons]
    by_cases h1 : a = k
    · rw [if_pos h1, yankAt_cons, if_pos h1, ih]
    · rw [if_neg h1, yankAt_cons, if_neg h1, ih]

/-- What a successful invoice creation implies: the invoice was not
yanked, its key was fresh, the manifest is prepended, and the returned
labels are exactly the filter of the absent ones. -/
theorem create_invoice_ok {s : StorageState} {inv : Invoice}
    {r : StorageState × List Label} (h : create_invoice s inv = .ok r) :
    inv.yanked.getD false = false
    ∧ alookup s.invoices inv.canonical_name = none
    ∧ r.1 = { s with invoices := (inv.canonical_name, inv) :: s.invoices }
    ∧ r.2 = ((inv.parcels.getD []).map Parcel.label).filter
        (fun l => (alookup s.parcels l.sha256).isNone) := by
  unfold create_invoice at h
  split at h
  · exact absurd h (by simp)
  · split at h
    · exact absurd h (by simp)
    · rename_i hy hk
      refine ⟨by simpa using hy, by simpa using hk, ?_, ?_⟩
      · cases h; rfl
      · cases h; rfl

/-- What a successful yank implies: a resolvable identifier, a present
manifest, and the state with that key yanked. -/
theorem yank_invoice_ok {s : StorageState} {idStr : String} {s2 : StorageState}
    (h : yank_invoice s idStr = .ok s2) :
    ∃ id, parseId idStr = some id
      ∧ (alookup s.invoices id.sha).isSome = true
      ∧ s2 = { s with invoices := yankAt s.invoices id.sha } := by
  unfold yank_invoice at h
  split at h
  · exact absurd h (by simp)
  · rename_i id hid
    split at h
    · exact absurd h (by simp)
    · rename_i inv hinv
      exact ⟨id, hid, by simp [hinv], by cases h; rfl⟩

/-- What a successful parcel creation implies: invoices untouched, the
bytes prepended under the digest. -/
theorem create_parcel_ok {s : StorageState} {label : Label} {data : List Nat}
    {s2 : StorageState} (h : create_parcel s label data = .ok s2) :
    s2.invoices = s.invoices
    ∧ s2.parcels = (label.sha256, data) :: s.parcels := by
  unfold create_parcel at h
  split at h
  · exact absurd h (by simp)
  · split at h
    · exact absurd h (by simp)
    · cases h; exact ⟨rfl, rfl⟩

/-- A yanked entry stays yanked across any single storage operation. -/
theorem yankedAt_step (s : StorageState) (op : StorageOp) (k : String)
    (h : yankedAt s k = true) : yankedAt (stepOp s op) k = true := by
  cases op with
  | createInv inv =>
    cases hc : create_invoice s inv with
    | error e => simpa [stepOp, hc] using h
    | ok r =>
      obtain ⟨hy, hk, hs, hm⟩ := create_invoice_ok hc
      have hstep : stepOp s (.createInv inv) = r.1 := by simp [stepOp, hc]
      rw [hstep, hs]
      have hne : inv.canonical_name ≠ k := by
        intro he
        rw [he] at hk
        unfold yankedAt at h
        rw [hk] at h
        exact absurd h (by simp)
      unfold yankedAt at h ⊢
      simpa [alookup_cons, if_neg hne] using h
  | yankInv i =>
    cases hc : yank_invoice s i with
    | error e => simpa [stepOp, hc] using h
    | ok s2 =>
      obtain ⟨id, hid, hsome, hs⟩ := yank_invoice_ok hc
      have hstep : stepOp s (.yankInv i) = s2 := by simp [stepOp, hc]
      rw [hstep, hs]
      unfold yankedAt at h ⊢
      simp only [alookup_yankAt]
      by_cases he : k = id.sha
      · rw [if_pos he]
        cases hl : alookup s.invoices k with
        | none => rw [hl] at h; exact absurd h (by simp)
        | some inv => simp
      · rw [if_neg he]; exact h
  | createPar l d =>
    cases hc : create_parcel s l d with
    | error e => simpa [stepOp, hc] using h
    | ok s2 =>
      obtain ⟨hi, _⟩ := create_parcel_ok hc
      have hstep : stepOp s (.createPar l d) = s2 := by simp [stepOp, hc]
      rw [hstep]
      unfold yankedAt at h ⊢
      rw [hi]
      exact h
  | getInv i => exact h
  | getYankedInv i => exact h
  | getPar d => exact h

/-- A yanked entry stays yanked across any operation sequence. -/
theorem yankedAt_runOps (s : StorageState) (ops : List StorageOp) (k : String)
    (h : yankedAt s k = true) : yankedAt (runOps s ops) k = true := by
  induction ops generalizing s with
  | nil => exact h
  | cons op rest ih => exact ih (stepOp s op) (yankedAt_step s op k h)

/-- C1: invoice creation rejects a yanked invoice with CreateYanked and
persists nothing, rejects a duplicate canonical key with Exists, and
otherwise succeeds, persisting the manifest and returning exactly the
referenced parcel labels whose content is absent from parcel storage
(all of them when none is present).  Errors carry no state, so nothing
is persisted on failure. -/
theorem create_invoice_contract (s : StorageState) (inv : Invoice) :
    (inv.yanked = some true → create_invoice s inv = .error .CreateYanked)
  ∧ (inv.yanked.getD false = false →
      (alookup s.invoices inv.canonical_name).isSome = true →
        create_invoice s inv = .error .Exists)
  ∧ (inv.yanked.getD false = false →
      alookup s.invoices inv.canonical_name = none →
        resultOk (create_invoice s inv) = true
      ∧ ∀ s2 missing, create_invoice s inv = .ok (s2, missing) →
          alookup s2.invoices inv.canonical_name = some inv
        ∧ s2.parcels = s.parcels
        ∧ ∀ l, (l ∈ missing ↔
            l ∈ (inv.parcels.getD []).map Parcel.label
            ∧ alookup s.parcels l.sha256 = none)) := by
  refine ⟨?_, ?_, ?_⟩
  · intro hy
    simp [create_invoice, hy]
  · intro hy hk
    simp [create_invoice, hy, hk]
  · intro hy hk
    refine ⟨by simp [create_invoice, hy, hk, resultOk], ?_⟩
    intro s2 missing hok
    obtain ⟨_, _, hs, hm⟩ := create_invoice_ok hok
    simp only at hs hm
    refine ⟨?_, ?_, ?_⟩
    · rw [hs]
      simp [alookup_cons]
    · rw [hs]
    · intro l
      rw [hm]
      simp [List.mem_filter, Option.isNone_iff_eq_none]

/-- Witness for C1: the yanked rejection, the duplicate rejection, and
a successful creation reporting the missing label. -/
theorem create_invoice_contract_witness :
    create_invoice exState0 exInvoiceYanked = .error .CreateYanked
  ∧ create_invoice exState1 exInvoice = .error .Exists
  ∧ resultOk (create_invoice exState0 exInvoice) = true
  ∧ alookup exState1.invoices exInvoice.canonical_name = some exInvoice :=
  ⟨(create_invoice_contract exState0 exInvoiceYanked).1 rfl,
   (create_invoice_contract exState1 exInvoice).2.1 (by decide) (by decide),
   ((create_invoice_contract exState0 exInvoice).2.2 (by decide) (by decide)).1,
   (((create_invoice_contract exState0 exInvoice).2.2 (by decide) (by decide)).2
      exState1 [exLabel] (by rfl)).1⟩

/-- C4: parcel creation rejects bytes whose digest differs from the
declared sha256 with DigestMismatch (and, the state being unchanged,
nothing becomes retrievable under that digest), rejects an already
stored digest with Exists, and otherwise persists the bytes under the
declared digest without touching invoices. -/
theorem create_parcel_contract (s : StorageState) (label : Label) (data : List Nat) :
    (modelDigest data ≠ label.sha256 →
        create_parcel s label data = .error .DigestMismatch
      ∧ (alookup s.parcels label.sha256 = none →
          get_parcel s label.sha256 = .error .NotFound))
  ∧ (modelDigest data = label.sha256 →
      (alookup s.parcels label.sha256).isSome = true →
        create_parcel s label data = .error .Exists)
  ∧ (modelDigest data = label.sha256 →
      alookup s.parcels label.sha256 = none →
        resultOk (create_parcel s label data) = true
      ∧ ∀ s2, create_parcel s label data = .ok s2 →
          alookup s2.parcels label.sha256 = some data
        ∧ s2.invoices = s.invoices) := by
  refine ⟨?_, ?_, ?_⟩
  · intro hd
    refine ⟨by simp [create_parcel, hd], ?_⟩
    intro hk
    simp [get_parcel, hk]
  · intro hd hk
    simp [create_parcel, hd, hk]
  · intro hd hk
    refine ⟨by simp [create_parcel, hd, hk, resultOk], ?_⟩
    intro s2 hok
    obtain ⟨hi, hp⟩ := create_parcel_ok hok
    refine ⟨?_, hi⟩
    rw [hp, alookup_cons, if_pos rfl]

/-- Witness for C4: a mismatching upload fails and leaves the digest
unreadable, a duplicate digest fails, and a matching upload lands. -/
theorem create_parcel_contract_witness :
    create_parcel exState0 exLabel [9] = .error .DigestMismatch
  ∧ get_parcel exState0 exLabel.sha256 = .error .NotFound
  ∧ create_parcel exStateP exLabel [1, 2, 3] = .error .Exists
  ∧ resultOk (create_parcel exState0 exLabel [1, 2, 3]) = true
  ∧ alookup exStateP.parcels exLabel.sha256 = some [1, 2, 3] :=
  ⟨((create_parcel_contract exState0 exLabel [9]).1 (by decide)).1,
   ((create_parcel_contract exState0 exLabel [9]).1 (by decide)).2 (by rfl),
   (create_parcel_contract exStateP exLabel [1, 2, 3]).2.1 (by decide) (by decide),
   ((create_parcel_contract exState0 exLabel [1, 2, 3]).2.2 (by decide) (by rfl)).1,
   (((create_parcel_contract exState0 exLabel [1, 2, 3]).2.2 (by decide) (by rfl)).2
      exStateP (by rfl)).1⟩

/-- C5: for a resolvable identifier, reading an absent invoice fails
with NotFound on both read paths; reading a yanked invoice fails with
Yanked on the default path; otherwise the stored invoice is returned;
and the yanked-inclusive path returns the stored manifest regardless of
yank state, failing only with NotFound. -/
theorem get_invoice_contract (s : StorageState) (idStr : String) (id : Id)
    (h : parseId idStr = some id) :
    (alookup s.invoices id.sha = none →
        get_invoice s idStr = .error .NotFound
      ∧ get_yanked_invoice s idStr = .error .NotFound)
  ∧ (∀ inv, alookup s.invoices id.sha = some inv →
        (inv.yanked.getD false = true → get_invoice s idStr = .error .Yanked)
      ∧ (inv.yanked.getD false = false → get_invoice s idStr = .ok inv)
      ∧ get_yanked_invoice s idStr = .ok inv) := by
  refine ⟨?_, ?_⟩
  · intro hk
    exact ⟨by simp [get_invoice, h, hk], by simp [get_yanked_invoice, h, hk]⟩
  · intro inv hk
    refine ⟨?_, ?_, ?_⟩
    · intro hy
      simp [get_invoice, h, hk, hy]
    · intro hy
      simp [get_invoice, h, hk, hy]
    · simp [get_yanked_invoice, h, hk]

/-- Witness for C5 over empty, fresh and yanked storage. -/
theorem get_invoice_contract_witness :
    get_invoice exState0 "foo/1.2.3" = .error .NotFound
  ∧ get_invoice exStateY "foo/1.2.3" = .error .Yanked
  ∧ get_invoice exState1 "foo/1.2.3" = .ok exInvoice
  ∧ get_yanked_invoice exStateY "foo/1.2.3" = .ok exInvoiceYanked :=
  ⟨((get_invoice_contract exState0 "foo/1.2.3" exId (by decide)).1 (by rfl)).1,
   ((get_invoice_contract exStateY "foo/1.2.3" exId (by decide)).2 exInvoiceYanked
      (by decide)).1 (by decide),
   (((get_invoice_contract exState1 "foo/1.2.3" exId (by decide)).2 exInvoice
      (by decide)).2).1 (by decide),
   (((get_invoice_contract exStateY "foo/1.2.3" exId (by decide)).2 exInvoiceYanked
      (by decide)).2).2⟩

/-- C6: the yanked flag is monotonic over every sequence of storage
operations; yanking a missing invoice fails with NotFound; yanking a
present invoice succeeds whatever its yank state; and a second yank of
the same identifier succeeds and is a no-op on the state. -/
theorem yank_invoice_contract (s : StorageState) :
    (∀ k ops, yankedAt s k = true → yankedAt (runOps s ops) k = true)
  ∧ (∀ idStr id, parseId idStr = some id →
      alookup s.invoices id.sha = none →
        yank_invoice s idStr = .error .NotFound)
  ∧ (∀ idStr id, parseId idStr = some id →
      (alookup s.invoices id.sha).isSome = true →
        resultOk (yank_invoice s idStr) = true)
  ∧ (∀ idStr s2, yank_invoice s idStr = .ok s2 → yank_invoice s2 idStr = .ok s2) := by
  refine ⟨?_, ?_, ?_, ?_⟩
  · intro k ops h
    exact yankedAt_runOps s ops k h
  · intro idStr id h hk
    simp [yank_invoice, h, hk]
  · intro idStr id h hsome
    obtain ⟨inv, hinv⟩ := Option.isSome_iff_exists.mp hsome
    simp [yank_invoice, h, hinv, resultOk]
  · intro idStr s2 hok
    obtain ⟨id, hid, hsome, hs⟩ := yank_invoice_ok hok
    obtain ⟨inv, hinv⟩ := Option.isSome_iff_exists.mp hsome
    have hl2 : alookup s2.invoices id.sha = some { inv with yanked := some true } := by
      rw [hs]
      show alookup (yankAt s.invoices id.sha) id.sha = _
      rw [alookup_yankAt, if_pos rfl, hinv]
      rfl
    have hidem : yankAt s2.invoices id.sha = s2.invoices := by
      rw [hs]
      show yankAt (yankAt s.invoices id.sha) id.sha = yankAt s.invoices id.sha
      exact yankAt_idem _ _
    simp only [yank_invoice, hid, hl2, hidem]

/-- Witness for C6: monotonicity across a concrete operation sequence,
the NotFound failure, a successful yank, and the idempotent re-yank. -/
theorem yank_invoice_contract_witness :
    yankedAt (runOps exStateY
      [.createInv exInvoice, .yankInv "foo/1.2.3", .createPar exLabel [1, 2, 3]])
      exInvoice.canonical_name = true
  ∧ yank_invoice exState0 "foo/1.2.3" = .error .NotFound
  ∧ resultOk (yank_invoice exState1 "foo/1.2.3") = true
  ∧ yank_invoice exStateY "foo/1.2.3" = .ok exStateY :=
  ⟨(yank_invoice_contract exStateY).1 exInvoice.canonical_name _ (by decide),
   (yank_invoice_contract exState0).2.1 "foo/1.2.3" exId (by decide) (by rfl),
   (yank_invoice_contract exState1).2.2.1 "foo/1.2.3" exId (by decide) (by decide),
   (yank_invoice_contract exState1).2.2.2 "foo/1.2.3" exStateY (by rfl)⟩

end Bindle
